import Mathlib

/-!
A shallow embedding of the go-slogs structured-logging middleware
(`attrs.go`, `handler.go`, `multi_handler.go`, the context prepend/append
store, and `internal/attr`), together with theorems checking the
natural-language specification against it.

Modelling conventions:
* `slog.Level` is an `Int` (slog levels are signed integers).
* `slog.Value` is the inductive `SValue`; an attribute is a key/value pair.
* Go slices that matter only by their contents are Lean lists; where a
  claim is about slice aliasing, slices are modelled as references into an
  explicit `Store` of arrays.
* A Go `error` is `Option String` (`none` = nil, `some msg` = an error
  whose `Error()` string is `msg`).
-/

/-- A `slog.Value`: string values, int values, group values (nested
attribute lists), and an `AnyValue` wrapping of a pre-formed attribute
(the result of `slog.Any(key, someAttr)`). -/
inductive SValue where
  | str : String → SValue
  | int : Int → SValue
  | group : List (String × SValue) → SValue
  | anyAttr : String → SValue → SValue

/-- A `slog.Attr`: a key paired with a value. -/
abbrev SAttr := String × SValue

/-! ## A store of slice backing arrays

Claims about slice aliasing (defensive copying, context isolation) need the
identity of a slice's backing array, not just its contents.  A `Store` is the
set of live backing arrays, indexed by allocation order; a slice that was
produced by `slices.Clip` (capacity = length) is just its array index, since
any later `append` to it must reallocate. -/

/-- The live backing arrays of all attribute slices, by allocation order. -/
abbrev Store := List (List SAttr)

/-- The contents of the array behind reference `r` (out-of-range reads, which
never happen in the modelled code, give the empty slice). -/
def readArr (s : Store) (r : Nat) : List SAttr := s.getD r []

/-- In-place mutation `arr[i] = a` of the array behind reference `r` — the
kind of external mutation the spec's defensive-copy sentence is about. -/
def writeIdx (s : Store) (r i : Nat) (a : SAttr) : Store :=
  s.set r ((readArr s r).set i a)

/-- Allocate a fresh backing array holding `xs`; returns the new store and
the new array's reference. -/
def allocArr (s : Store) (xs : List SAttr) : Store × Nat :=
  (s ++ [xs], s.length)

/-! ## `internal/attr`: variadic-argument conversion (`attr.go`)

`ArgsToAttrSlice`/`ArgsToAttr` scan a `[]any` argument list.  A Go `any`
argument that is relevant to the conversion is a string, a pre-formed
`slog.Attr`, or some other value; `GoArg` is that universe. -/

/-- One `any` argument of a variadic logging call. -/
inductive GoArg where
  | str : String → GoArg
  | attrArg : SAttr → GoArg
  | val : SValue → GoArg

/-- `badKey`, the reserved key for malformed arguments (`attr.go`). -/
def badKey : String := "!BADKEY"

/-- `slog.Any(key, x)`'s value for the second element of a key/value pair:
basic values are used as-is, a pre-formed `slog.Attr` is wrapped as an
`AnyValue`. -/
def anyValue : GoArg → SValue
  | .str s => .str s
  | .val v => v
  | .attrArg (k, v) => .anyAttr k v

/-- `attr.ArgsToAttrSlice` with `attr.ArgsToAttr`'s case analysis inlined
into the scanning loop: a string followed by another argument consumes it as
its value; a lone trailing string gets key `!BADKEY`; a pre-formed attribute
is used as-is; any other value gets key `!BADKEY` (`attr.go`). -/
def ArgsToAttrSlice : List GoArg → List SAttr
  | [] => []
  | .str x :: [] => [(badKey, SValue.str x)]
  | .str x :: v :: rest => (x, anyValue v) :: ArgsToAttrSlice rest
  | .attrArg a :: rest => a :: ArgsToAttrSlice rest
  | .val v :: rest => (badKey, v) :: ArgsToAttrSlice rest

/-! ## Ambient context store (`context.go`, in `src/unnamed/part_002`)

A Go `context.Context` is an immutable chain; for the two keys this package
uses it is determined by the two optional slice references stored under
`prependKey`/`appendKey`.  `Prepend`/`Append` extend the stored list with
`append(slices.Clip(v), newAttrs...)`, which (capacity = length) always
allocates a fresh backing array, and store the result in a derived context
via `context.WithValue`. -/

/-- The observable state of a `context.Context` for this package: the slice
references stored under the prepend and append keys, if any. -/
structure CtxRef where
  prependRef : Option Nat := none
  appendRef : Option Nat := none

/-- `context.Background()`: carries neither list. -/
def backgroundCtx : CtxRef := {}

namespace GoCtx

/-- `Prepend(parent, args...)`: a nil parent becomes `context.Background()`;
the converted attributes are appended to a clip-copy of any existing prepend
list (a fresh backing array either way) and stored under the prepend key of
a derived context (`context.go`). -/
def Prepend (s : Store) (parent : Option CtxRef) (args : List GoArg) :
    Store × CtxRef :=
  let c := parent.getD backgroundCtx
  match c.prependRef with
  | some r =>
      let p := allocArr s (readArr s r ++ ArgsToAttrSlice args)
      (p.1, { c with prependRef := some p.2 })
  | none =>
      let p := allocArr s (ArgsToAttrSlice args)
      (p.1, { c with prependRef := some p.2 })

/-- `Append(parent, args...)`: symmetric to `Prepend`, under the append key
(`context.go`). -/
def Append (s : Store) (parent : Option CtxRef) (args : List GoArg) :
    Store × CtxRef :=
  let c := parent.getD backgroundCtx
  match c.appendRef with
  | some r =>
      let p := allocArr s (readArr s r ++ ArgsToAttrSlice args)
      (p.1, { c with appendRef := some p.2 })
  | none =>
      let p := allocArr s (ArgsToAttrSlice args)
      (p.1, { c with appendRef := some p.2 })

/-- `ExtractPrepended(ctx)`: the stored prepend list, or nil (`context.go`). -/
def ExtractPrepended (s : Store) (c : CtxRef) : List SAttr :=
  match c.prependRef with
  | some r => readArr s r
  | none => []

/-- `ExtractAppended(ctx)`: the stored append list, or nil (`context.go`). -/
def ExtractAppended (s : Store) (c : CtxRef) : List SAttr :=
  match c.appendRef with
  | some r => readArr s r
  | none => []

end GoCtx


/-! ## The attribute/group chain (`attrs.go`)

`GroupOrAttrs` is a persistent linked list built newest-first.  `nil` is the
Go nil pointer; a node carries a group name, an attribute slice, and the
parent pointer.  `WithGroup`/`WithAttrs` only ever populate one of the two
payload fields. -/

/-- A `*GroupOrAttrs` chain, by the value of each node's attribute slice. -/
inductive GroupOrAttrs where
  | nil : GroupOrAttrs
  | node (group : String) (attrs : List SAttr) (next : GroupOrAttrs) : GroupOrAttrs

/-- `(*GroupOrAttrs).WithGroup(name)`: an empty name is elided (the receiver
is returned unchanged), otherwise a new group node heads the chain
(`attrs.go`). -/
def GroupOrAttrs.withGroup (g : GroupOrAttrs) (name : String) : GroupOrAttrs :=
  if name = "" then g else .node name [] g

/-- `(*GroupOrAttrs).WithAttrs(attrs)`: an empty slice is elided (the
receiver is returned unchanged), otherwise a new attribute node heads the
chain (`attrs.go`). -/
def GroupOrAttrs.withAttrs (g : GroupOrAttrs) (attrs : List SAttr) : GroupOrAttrs :=
  if attrs.length = 0 then g else .node "" attrs g

/-- A `*GroupOrAttrs` chain by slice *reference*: each attribute node keeps
the reference of the slice stored in it, so that aliasing between a node and
its caller's array is observable.  Mirrors `attrs.go` exactly; the value
chain above is its read-out under a fixed store. -/
inductive GroupOrAttrsR where
  | nil : GroupOrAttrsR
  | node (group : String) (attrsRef : Option Nat) (next : GroupOrAttrsR) : GroupOrAttrsR

/-- Reference-level `(*GroupOrAttrs).WithAttrs(attrs)`: for a non-empty
slice the new node stores the caller's slice reference `r` itself —
`&GroupOrAttrs{attrs: attrs, next: g}` performs no copy (`attrs.go`). -/
def GroupOrAttrsR.withAttrsR (s : Store) (g : GroupOrAttrsR) (r : Nat) :
    GroupOrAttrsR :=
  if (readArr s r).length = 0 then g else .node "" (some r) g

/-- The attribute slice contents reachable from the head node of a
reference-level chain. -/
def GroupOrAttrsR.headAttrs (s : Store) : GroupOrAttrsR → List SAttr
  | .nil => []
  | .node _ none _ => []
  | .node _ (some r) _ => readArr s r

/-! ## The middleware handler (`handler.go`) -/

/-- `HandlerContext`: the accumulated logger names and the attribute/group
chain of one `Handler` (`handler.go`). -/
structure HandlerContext where
  Names : List String := []
  Attrs : GroupOrAttrs := .nil

/-- The chain-walking loop of `DefaultHandleFunc` (`handler.go`): the chain
is traversed newest-to-oldest; a group node wraps everything accumulated so
far under its name, an attribute node prepends its (clipped) attributes. -/
def chainApply : GroupOrAttrs → List SAttr → List SAttr
  | .nil, attrs => attrs
  | .node grp asg next, attrs =>
      chainApply next
        (if grp ≠ "" then [(grp, SValue.group attrs)] else asg ++ attrs)

/-- `DefaultHandleFunc` (`handler.go`): append the ambient append list to
the record's own attributes, fold the chain, prepend the ambient prepend
list, and prefix the message with the dotted name when one is set.  The
`rt`/`rl` parameters (record time and level) are part of the `HandleFunc`
signature but unused by the default implementation. -/
def DefaultHandleFunc (s : Store) (ctx : CtxRef) (hc : HandlerContext)
    (_rt : Int) (_rl : Int) (rm : String) (attrs : List SAttr) :
    String × List SAttr :=
  let attrs1 := attrs ++ GoCtx.ExtractAppended s ctx
  let attrs2 := chainApply hc.Attrs attrs1
  let attrs3 := GoCtx.ExtractPrepended s ctx ++ attrs2
  let rm' :=
    if hc.Names.length > 0 then
      "[" ++ String.intercalate "." hc.Names ++ "] " ++ rm
    else rm
  (rm', attrs3)

/-- The `HandleFunc` strategy type (`handler.go`). -/
abbrev HandleFn :=
  Store → CtxRef → HandlerContext → Int → Int → String → List SAttr →
    String × List SAttr

/-- A `slog.Record` (`log/slog`): timestamp, level, message, caller program
counter, and the attribute list reachable through `Record.Attrs`. -/
structure SRecord where
  time : Int
  level : Int
  message : String
  pc : Nat
  attrs : List SAttr

/-- A `Handler` (`handler.go`), with the wrapped next handler represented by
its observable `Enabled`/`Handle` behavior. -/
structure HandlerM where
  nextEnabled : Int → Bool
  nextHandle : SRecord → Option String
  handle : HandleFn
  level : Option Int
  context : HandlerContext

/-- `(*Handler).Enabled` as written in `handler.go` (lines 81–89): with a
configured level it returns false when `*h.level < level`, otherwise defers
to the next handler. -/
def HandlerM.enabled (h : HandlerM) (l : Int) : Bool :=
  match h.level with
  | some t => if t < l then false else h.nextEnabled l
  | none => h.nextEnabled l

/-- `(*Handler).Enabled` as written in the second handler variant
(`src/unnamed/part_000`, lines 652–661): with a configured level it returns
false when `level < h.level.Level()`, otherwise defers to the next
handler. -/
def HandlerM.enabledV2 (h : HandlerM) (l : Int) : Bool :=
  match h.level with
  | some t => if l < t then false else h.nextEnabled l
  | none => h.nextEnabled l

/-- The enablement predicate in the spec's words, for comparison: a level
strictly below the configured threshold is rejected, and the next handler
must independently report the level enabled. -/
def HandlerM.enabledSpec (h : HandlerM) (l : Int) : Bool :=
  (match h.level with
   | some t => decide (t ≤ l)
   | none => true) && h.nextEnabled l

/-- The record that `(*Handler).Handle` (`handler.go`) forwards to the next
handler: the handle function transforms the message and attribute list, and
the new record is built from the old one's time, level and PC. -/
def HandlerM.handleRecord (h : HandlerM) (s : Store) (c : CtxRef)
    (r : SRecord) : SRecord :=
  let p := h.handle s c h.context r.time r.level r.message r.attrs
  { time := r.time, level := r.level, message := p.1, pc := r.pc,
    attrs := p.2 }

/-- `(*Handler).Handle` (`handler.go`): the next handler's result on the
rebuilt record. -/
def HandlerM.handleRun (h : HandlerM) (s : Store) (c : CtxRef)
    (r : SRecord) : Option String :=
  h.nextHandle (h.handleRecord s c r)

/-! ## The fan-out broadcaster (`multi_handler.go`, first variant)

A `slog.Handler` reaching the broadcaster is either the broadcaster type
itself (`*multiHandler`, recognized by the constructor's type switch) or
some other handler, opaque except for its observable `Enabled`/`Handle`
behavior. -/

/-- A `slog.Handler` as seen by the broadcaster: an opaque leaf sink
(its `Enabled` and `Handle` behaviors) or a `*multiHandler` with its
constituent handler list. -/
inductive SHandler where
  | base (enabledFn : Int → Bool) (handleFn : SRecord → Option String) : SHandler
  | multi (hs : List SHandler) : SHandler

/-- Whether a handler is the `*multiHandler` type (the constructor's type
switch `handler.(*multiHandler)`). -/
def SHandler.isMulti : SHandler → Bool
  | .multi _ => true
  | _ => false

/-- The constituent sink list: a `*multiHandler`'s handler slice, or the
handler itself as a one-element list. -/
def SHandler.sinks : SHandler → List SHandler
  | .multi hs => hs
  | h => [h]

/-- The filtering/flattening loop of `MultiHandler` (`multi_handler.go`
lines 36–46): nil entries are dropped, a `*multiHandler` entry contributes
its inner handler list, any other entry contributes itself. -/
def collectValid : List (Option SHandler) → List SHandler
  | [] => []
  | none :: rest => collectValid rest
  | some (.multi hs) :: rest => hs ++ collectValid rest
  | some h :: rest => h :: collectValid rest

/-- `MultiHandler(handlers...)` (`multi_handler.go` lines 34–53): filter and
flatten; a one-element result is returned directly, otherwise a
`*multiHandler` wraps the list. -/
def MultiHandler (handlers : List (Option SHandler)) : SHandler :=
  match collectValid handlers with
  | [h] => h
  | valid => .multi valid

mutual

/-- `Enabled` of a handler: a leaf sink's own behavior; a `*multiHandler`
is enabled iff some constituent is (`multi_handler.go` lines 59–66). -/
def SHandler.enabledB : SHandler → Int → Bool
  | .base e _, l => e l
  | .multi hs, l => anyEnabled hs l

/-- The `Enabled` loop of `multiHandler.Enabled`: true as soon as one
handler reports the level enabled. -/
def anyEnabled : List SHandler → Int → Bool
  | [], _ => false
  | h :: rest, l => h.enabledB l || anyEnabled rest l

end

/-- The message of the single error built by `errors.Join` from the
collected non-nil errors: the constituent messages separated by
newlines. -/
def joinMsg : List String → String
  | [] => ""
  | [e] => e
  | e :: rest => e ++ "\n" ++ joinMsg rest

/-- `errors.Join(errs...)` over the collected non-nil errors: nil when
none were collected, otherwise one combined error. -/
def errorsJoin : List String → Option String
  | [] => none
  | es => some (joinMsg es)

mutual

/-- `Handle` of a handler: a leaf sink's own behavior; a `*multiHandler`
joins the errors collected from its constituents (`multi_handler.go`
lines 75–89). -/
def SHandler.handleB : SHandler → SRecord → Option String
  | .base _ hf, r => hf r
  | .multi hs, r => errorsJoin (collectErrs hs r)

/-- The `Handle` loop of `multiHandler.Handle`: every handler whose own
`Enabled` passes is attempted (with a clone of the record — equal as a
value), and each non-nil error is collected; no failure stops the loop. -/
def collectErrs : List SHandler → SRecord → List String
  | [], _ => []
  | h :: rest, r =>
      (if h.enabledB r.level then
        match h.handleB r with
        | some e => [e]
        | none => []
      else []) ++ collectErrs rest r

end

/-- `multiHandler.WithGroup` (`multi_handler.go` lines 105–116): an empty
name returns the receiver itself; otherwise each constituent derives its own
`WithGroup` copy (`childWG` is the constituent's opaque `WithGroup` method)
and the results are rebuilt through the `MultiHandler` constructor. -/
def multiWithGroup (childWG : SHandler → String → SHandler)
    (hs : List SHandler) (name : String) : SHandler :=
  if name = "" then .multi hs
  else MultiHandler (hs.map (fun h => some (childWG h name)))

/-! ## Concrete sinks used as instantiation material -/

/-- A leaf sink that is always enabled and always succeeds. -/
def sinkOk : SHandler := .base (fun _ => true) (fun _ => none)

/-- A leaf sink that is always enabled and always fails with message `e`. -/
def sinkErr (e : String) : SHandler := .base (fun _ => true) (fun _ => some e)

/-- A leaf sink that is never enabled. -/
def sinkOff : SHandler := .base (fun _ => false) (fun _ => none)

/-- A fixed record for instantiations. -/
def someRecord : SRecord :=
  { time := 10, level := 0, message := "m", pc := 7, attrs := [] }

/-- A run of plain attribute nodes (group-free) in front of a chain tail:
the head of the list is the newest node.  Any chain whose innermost open
group is `g` decomposes as `attrNodes ns (.node g [] older)`. -/
def attrNodes : List (List SAttr) → GroupOrAttrs → GroupOrAttrs
  | [], g => g
  | asg :: rest, g => .node "" asg (attrNodes rest g)

/-- The accumulator after the chain loop has prepended a newest-first run of
attribute slices in front of `acc`: oldest slice first. -/
def prependAll (ns : List (List SAttr)) (acc : List SAttr) : List SAttr :=
  ns.foldl (fun a asg => asg ++ a) acc

/-- A handler that is not a nest: either a leaf, or a broadcaster none of
whose constituents is itself a broadcaster. -/
def noNestedMulti : SHandler → Bool
  | .multi hs => hs.all (fun x => !x.isMulti)
  | _ => true

/-- The first derivation of C7's scenario:
`c1 = Prepend(c0, "k", "v")` over a background `c0`. -/
def c7p1 (s0 : Store) : Store × CtxRef :=
  GoCtx.Prepend s0 (some backgroundCtx) [.str "k", .str "v"]

/-- The second derivation of C7's scenario:
`c2 = Prepend(c1, "k2", "v2")`. -/
def c7p2 (s0 : Store) : Store × CtxRef :=
  GoCtx.Prepend (c7p1 s0).1 (some (c7p1 s0).2) [.str "k2", .str "v2"]

/-! ## Theorems for the claims -/

/-- **C1.** The claim: `Handler.Enabled(ctx, L)` is true iff `L` is not
strictly below the configured threshold and the next handler reports `L`
enabled.  The code of `handler.go` (lines 81–89) has the threshold
comparison inverted (`*h.level < level` instead of `level < *h.level`):
with threshold `LevelError = 8` and a next handler enabled from
`LevelInfo = 0` up, it reports `LevelWarn = 4` (strictly below the
threshold) as enabled and `12` (above the threshold) as disabled — the
opposite of the claim, of its own doc comment ("The handler ignores records
whose level is lower"), of `TestHandler_WithLevel`, and of the second
handler variant in `src/unnamed/part_000`, which implements the claimed
comparison. -/
theorem claim_C1_level_gate_inverted :
    (HandlerM.enabled
        { nextEnabled := fun l => decide (0 ≤ l), nextHandle := fun _ => none,
          handle := DefaultHandleFunc, level := some 8, context := {} } 4
      = true)
  ∧ (HandlerM.enabledSpec
        { nextEnabled := fun l => decide (0 ≤ l), nextHandle := fun _ => none,
          handle := DefaultHandleFunc, level := some 8, context := {} } 4
      = false)
  ∧ (HandlerM.enabledV2
        { nextEnabled := fun l => decide (0 ≤ l), nextHandle := fun _ => none,
          handle := DefaultHandleFunc, level := some 8, context := {} } 4
      = false)
  ∧ (HandlerM.enabled
        { nextEnabled := fun l => decide (0 ≤ l), nextHandle := fun _ => none,
          handle := DefaultHandleFunc, level := some 8, context := {} } 12
      = false)
  ∧ (HandlerM.enabledSpec
        { nextEnabled := fun l => decide (0 ≤ l), nextHandle := fun _ => none,
          handle := DefaultHandleFunc, level := some 8, context := {} } 12
      = true) :=
  ⟨rfl, rfl, rfl, rfl, rfl⟩

/-- **C2.** For the chain `withAttrs({a:1})` then `withGroup("g")` then
`withAttrs({b:2})`, empty name, and a context with no ambient lists,
`DefaultHandleFunc` on a record with own attributes `{c:3}` leaves the
message alone and returns `[a:1, g:{b:2, c:3}]`: the group wraps exactly
the attributes added after it was opened, and earlier attributes precede
the group entry. -/
theorem claim_C2_composition_example :
    DefaultHandleFunc [] backgroundCtx
      { Names := [],
        Attrs := ((GroupOrAttrs.nil.withAttrs
            [("a", SValue.int 1)]).withGroup "g").withAttrs
            [("b", SValue.int 2)] }
      0 0 "m" [("c", SValue.int 3)]
      = ("m", [("a", SValue.int 1),
               ("g", SValue.group [("b", SValue.int 2),
                                   ("c", SValue.int 3)])]) := by
  rfl

/-- **C9.** `multiHandler.WithGroup("")` returns the receiver itself: no
derived sinks are created and the constituent sink list is identical,
matching the empty-group elision of the chain's `withGroup`. -/
theorem claim_C9_withgroup_empty_noop
    (childWG : SHandler → String → SHandler) (hs : List SHandler) :
    multiWithGroup childWG hs "" = SHandler.multi hs
  ∧ (multiWithGroup childWG hs "").sinks = hs := by
  constructor <;> simp [multiWithGroup, SHandler.sinks]

/-- **C10.** The record `Handler.Handle` forwards to the next handler
carries the incoming record's timestamp, level and caller program counter
unchanged; only the message and the attribute list are transformed, and
they are exactly the two components the handle function returns. -/
theorem claim_C10_handle_preserves_frame
    (h : HandlerM) (s : Store) (c : CtxRef) (r : SRecord) :
    (h.handleRecord s c r).time = r.time
  ∧ (h.handleRecord s c r).level = r.level
  ∧ (h.handleRecord s c r).pc = r.pc
  ∧ (h.handleRecord s c r).message
      = (h.handle s c h.context r.time r.level r.message r.attrs).1
  ∧ (h.handleRecord s c r).attrs
      = (h.handle s c h.context r.time r.level r.message r.attrs).2 := by
  refine ⟨rfl, rfl, rfl, rfl, rfl⟩

/-- The `Enabled` loop reports true exactly when some handler in the list
reports the level enabled. -/
theorem anyEnabled_iff_exists (hs : List SHandler) (l : Int) :
    anyEnabled hs l = true ↔ ∃ h ∈ hs, SHandler.enabledB h l = true := by
  induction hs with
  | nil => simp [anyEnabled]
  | cons h rest ih => simp [anyEnabled, Bool.or_eq_true, ih]

/-- **C8.** A broadcaster's `Enabled(ctx, L)` is true iff at least one
constituent sink's `Enabled(ctx, L)` is true; with an empty sink list every
level is disabled. -/
theorem claim_C8_enabled_or (hs : List SHandler) (l : Int) :
    (SHandler.enabledB (.multi hs) l = true
      ↔ ∃ h ∈ hs, SHandler.enabledB h l = true)
  ∧ SHandler.enabledB (.multi []) l = false := by
  refine ⟨?_, by simp [SHandler.enabledB, anyEnabled]⟩
  rw [show SHandler.enabledB (.multi hs) l = anyEnabled hs l from by
    simp [SHandler.enabledB]]
  exact anyEnabled_iff_exists hs l


/-- Walking a group-free run of attribute nodes prepends their slices to the
accumulator and continues with the tail. -/
theorem chainApply_attrNodes (ns : List (List SAttr)) (g : GroupOrAttrs)
    (acc : List SAttr) :
    chainApply (attrNodes ns g) acc = chainApply g (prependAll ns acc) := by
  induction ns generalizing acc with
  | nil => rfl
  | cons asg rest ih => simp [attrNodes, chainApply, prependAll, ih, prependAll]

/-- **C3.** For any chain whose innermost open group is `gname` (the chain
decomposes as a group-free run `ns` of attribute nodes in front of the
group node, with an arbitrary older tail), any ambient context and any
record: the composed attribute list is the ambient prepend list, at top
level, followed by everything built from the chain — so each prepend-list
attribute sits outside and before the group entry — and the innermost
group's nested value is the run's attributes followed by the record's own
attributes followed by the ambient append list, so each append-list
attribute ends up inside the innermost group, after the record's own
attributes. -/
theorem claim_C3_prepend_outside_append_inside
    (s : Store) (ctx : CtxRef) (gname : String) (hg : gname ≠ "")
    (older : GroupOrAttrs) (ns : List (List SAttr))
    (hc : HandlerContext) (rt rl : Int) (rm : String) (attrs : List SAttr)
    (hchain : hc.Attrs = attrNodes ns (.node gname [] older)) :
    (DefaultHandleFunc s ctx hc rt rl rm attrs).2
      = GoCtx.ExtractPrepended s ctx
          ++ chainApply older
              [(gname, SValue.group
                  (prependAll ns (attrs ++ GoCtx.ExtractAppended s ctx)))] := by
  simp only [DefaultHandleFunc, hchain, chainApply_attrNodes, chainApply,
    if_pos hg]

/-- Witness for C3: chain `withAttrs({a:1}) → withGroup("g") →
withAttrs({b:2})`, ambient prepend `{p:1}`, ambient append `{x:9}`, record
attributes `{c:3}`: the composed list is
`[p:1, a:1, g:{b:2, c:3, x:9}]`. -/
theorem claim_C3_witness :
    (DefaultHandleFunc [[("p", SValue.int 1)], [("x", SValue.int 9)]]
        { prependRef := some 0, appendRef := some 1 }
        { Names := [],
          Attrs := attrNodes [[("b", SValue.int 2)]]
              (.node "g" [] (GroupOrAttrs.nil.withAttrs [("a", SValue.int 1)])) }
        0 0 "m" [("c", SValue.int 3)]).2
      = GoCtx.ExtractPrepended [[("p", SValue.int 1)], [("x", SValue.int 9)]]
            { prependRef := some 0, appendRef := some 1 }
          ++ chainApply (GroupOrAttrs.nil.withAttrs [("a", SValue.int 1)])
              [("g", SValue.group
                  (prependAll [[("b", SValue.int 2)]]
                    ([("c", SValue.int 3)]
                      ++ GoCtx.ExtractAppended
                          [[("p", SValue.int 1)], [("x", SValue.int 9)]]
                          { prependRef := some 0, appendRef := some 1 })))] :=
  claim_C3_prepend_outside_append_inside
    [[("p", SValue.int 1)], [("x", SValue.int 9)]]
    { prependRef := some 0, appendRef := some 1 }
    "g" (by simp)
    (GroupOrAttrs.nil.withAttrs [("a", SValue.int 1)])
    [[("b", SValue.int 2)]]
    { Names := [],
      Attrs := attrNodes [[("b", SValue.int 2)]]
          (.node "g" [] (GroupOrAttrs.nil.withAttrs [("a", SValue.int 1)])) }
    0 0 "m" [("c", SValue.int 3)] rfl


/-- The constructor loop keeps a non-broadcaster entry as-is. -/
theorem collectValid_cons_nonmulti (h : SHandler)
    (rest : List (Option SHandler)) (hn : h.isMulti = false) :
    collectValid (some h :: rest) = h :: collectValid rest := by
  cases h with
  | base e f => rfl
  | multi hs => simp [SHandler.isMulti] at hn

/-- Every handler the constructor loop emits is a non-broadcaster, provided
every broadcaster among the inputs is itself flat. -/
theorem collectValid_flat (hs : List (Option SHandler))
    (hflat : ∀ g, some g ∈ hs → noNestedMulti g = true) :
    ∀ x ∈ collectValid hs, x.isMulti = false := by
  induction hs with
  | nil => simp [collectValid]
  | cons o rest ih =>
    have ih' := ih (fun g hg => hflat g (List.mem_cons_of_mem _ hg))
    cases o with
    | none =>
      simpa [collectValid] using ih'
    | some g =>
      cases g with
      | base e f =>
        intro x hx
        rw [collectValid_cons_nonmulti (.base e f) rest rfl] at hx
        rcases List.mem_cons.mp hx with h | h
        · subst h; rfl
        · exact ih' x h
      | multi ms =>
        intro x hx
        simp only [collectValid] at hx
        rcases List.mem_append.mp hx with h | h
        · have := hflat (.multi ms) (List.mem_cons_self _ _)
          simp only [noNestedMulti, List.all_eq_true] at this
          simpa using this x h
        · exact ih' x h

/-- **C4.** The broadcaster constructor splices inner broadcasters into one
flat sequence and never nests: (i) if every broadcaster among the inputs is
flat, the result is flat; (ii) `MultiHandler(MultiHandler(h1, h2), h3)` has
the same flat constituent list as `MultiHandler(h1, h2, h3)`, namely
`[h1, h2, h3]`; (iii) when the filtered, flattened list has exactly one
entry, that entry itself is returned without wrapping. -/
theorem claim_C4_flattening :
    (∀ hs : List (Option SHandler),
      (∀ g, some g ∈ hs → noNestedMulti g = true) →
      noNestedMulti (MultiHandler hs) = true)
  ∧ (∀ h1 h2 h3 : SHandler,
      h1.isMulti = false → h2.isMulti = false → h3.isMulti = false →
      (MultiHandler [some (MultiHandler [some h1, some h2]), some h3]).sinks
          = [h1, h2, h3]
      ∧ (MultiHandler [some h1, some h2, some h3]).sinks = [h1, h2, h3])
  ∧ (∀ (hs : List (Option SHandler)) (x : SHandler),
      collectValid hs = [x] → MultiHandler hs = x) := by
  refine ⟨?_, ?_, ?_⟩
  · intro hs hflat
    have hall := collectValid_flat hs hflat
    unfold MultiHandler
    rcases hv : collectValid hs with _ | ⟨x, _ | ⟨y, t⟩⟩
    · simp [noNestedMulti]
    · have hx := hall x (by rw [hv]; exact List.mem_cons_self _ _)
      cases x with
      | base e f => simp [noNestedMulti]
      | multi ms => simp [SHandler.isMulti] at hx
    · rw [hv] at hall
      simp only [noNestedMulti, List.all_eq_true]
      intro a ha
      simpa using hall a ha
  · intro h1 h2 h3 n1 n2 n3
    have e3 : collectValid [some h3] = [h3] := by
      rw [collectValid_cons_nonmulti _ _ n3]; rfl
    have e12 : collectValid [some h1, some h2] = [h1, h2] := by
      rw [collectValid_cons_nonmulti _ _ n1, collectValid_cons_nonmulti _ _ n2]
      rfl
    have m12 : MultiHandler [some h1, some h2] = .multi [h1, h2] := by
      rw [MultiHandler, e12]
    have e123 : collectValid [some h1, some h2, some h3] = [h1, h2, h3] := by
      rw [collectValid_cons_nonmulti _ _ n1, collectValid_cons_nonmulti _ _ n2,
        collectValid_cons_nonmulti _ _ n3]
      rfl
    constructor
    · rw [m12, MultiHandler]
      rw [show collectValid [some (SHandler.multi [h1, h2]), some h3]
            = [h1, h2] ++ collectValid [some h3] from rfl, e3]
      rfl
    · rw [MultiHandler, e123]
      rfl
  · intro hs x h
    rw [MultiHandler, h]

/-- Witness for C4: three concrete leaf sinks; the nested construction
flattens to the same three-element list as the flat construction, and a
one-element construction returns the sink itself. -/
theorem claim_C4_witness :
    (MultiHandler [some (MultiHandler [some sinkOk, some (sinkErr "e")]),
        some sinkOff]).sinks = [sinkOk, sinkErr "e", sinkOff]
  ∧ MultiHandler [none, some sinkOk] = sinkOk := by
  constructor
  · exact (claim_C4_flattening.2.1 sinkOk (sinkErr "e") sinkOff
      rfl rfl rfl).1
  · exact claim_C4_flattening.2.2 [none, some sinkOk] sinkOk rfl

/-- Reading an existing array is unchanged by allocating further arrays. -/
theorem readArr_append_left (s : Store) (l : List (List SAttr)) (r : Nat)
    (h : r < s.length) : readArr (s ++ l) r = readArr s r := by
  simp [readArr, List.getElem?_append_left h]

/-- Reading the array just allocated returns its contents. -/
theorem readArr_concat_self (s : Store) (xs : List SAttr) :
    readArr (s ++ [xs]) s.length = xs := by
  simp [readArr, List.getElem?_concat_length]

/-- Reading an array after mutating it returns the mutated contents. -/
theorem readArr_set_self (s : Store) (r : Nat) (x : List SAttr)
    (h : r < s.length) : readArr (s.set r x) r = x := by
  simp [readArr, writeIdx, List.getElem?_set_self (by simpa using h)]

/-- **C6 counterexample.** The claim says the chain node stores a
defensive copy, so mutating the caller's array cannot change the attributes
reachable from the node.  With one backing array `[a:1]`, building a node
from it and then writing `a:2` through the caller's slice *does* change the
attributes reachable from the node: `WithAttrs` stores the caller's slice
itself. -/
theorem claim_C6_counterexample :
    ¬ (GroupOrAttrsR.headAttrs
          (writeIdx [[("a", SValue.int 1)]] 0 0 ("a", SValue.int 2))
          (GroupOrAttrsR.withAttrsR [[("a", SValue.int 1)]] .nil 0)
        = GroupOrAttrsR.headAttrs [[("a", SValue.int 1)]]
            (GroupOrAttrsR.withAttrsR [[("a", SValue.int 1)]] .nil 0)) := by
  simp [GroupOrAttrsR.withAttrsR, GroupOrAttrsR.headAttrs, writeIdx, readArr]

/-- **C6 (amended).** `withAttrs(node, attrs)` stores the caller's slice
itself, without a defensive copy (only the composition step later clips it);
consequently, whenever the caller's array is mutated at a valid index with a
different attribute, the attributes reachable from the stored chain node
change. -/
theorem claim_C6_withattrs_aliases_input
    (s : Store) (g : GroupOrAttrsR) (r i : Nat) (a b : SAttr)
    (hr : r < s.length) (hi : (readArr s r)[i]? = some b) (hab : a ≠ b) :
    GroupOrAttrsR.headAttrs (writeIdx s r i a)
        (GroupOrAttrsR.withAttrsR s g r)
      ≠ GroupOrAttrsR.headAttrs s (GroupOrAttrsR.withAttrsR s g r) := by
  have hlen : (readArr s r).length ≠ 0 := by
    intro h0
    rw [List.getElem?_eq_none (by omega)] at hi
    exact Option.noConfusion hi
  have hilt : i < (readArr s r).length := by
    by_contra hge
    rw [List.getElem?_eq_none (by omega)] at hi
    exact Option.noConfusion hi
  rw [GroupOrAttrsR.withAttrsR, if_neg hlen]
  simp only [GroupOrAttrsR.headAttrs]
  rw [show writeIdx s r i a = s.set r ((readArr s r).set i a) from rfl,
    readArr_set_self s r _ hr]
  intro heq
  have h1 : ((readArr s r).set i a)[i]? = some a :=
    List.getElem?_set_self (by simpa using hilt)
  rw [heq, hi] at h1
  exact hab (Option.some.inj h1.symm)

/-- Witness for the amended C6: a two-array store, a node built from the
second array `[z:5]`, mutated through the caller's slice to `[z:7]`. -/
theorem claim_C6_witness :
    GroupOrAttrsR.headAttrs
        (writeIdx [[], [("z", SValue.int 5)]] 1 0 ("z", SValue.int 7))
        (GroupOrAttrsR.withAttrsR [[], [("z", SValue.int 5)]] .nil 1)
      ≠ GroupOrAttrsR.headAttrs [[], [("z", SValue.int 5)]]
          (GroupOrAttrsR.withAttrsR [[], [("z", SValue.int 5)]] .nil 1) :=
  claim_C6_withattrs_aliases_input [[], [("z", SValue.int 5)]] .nil 1 0
    ("z", SValue.int 7) ("z", SValue.int 5) (by decide) rfl (by simp)

/-- `ExtractPrepended` ignores newly allocated arrays: reading a context
whose prepend reference is within the old store is unchanged. -/
theorem extractPrepended_store_grow (s : Store) (t : List (List SAttr))
    (c : CtxRef) (hb : ∀ r, c.prependRef = some r → r < s.length) :
    GoCtx.ExtractPrepended (s ++ t) c = GoCtx.ExtractPrepended s c := by
  cases hc : c.prependRef with
  | none => simp [GoCtx.ExtractPrepended, hc]
  | some r =>
      simp [GoCtx.ExtractPrepended, hc, readArr_append_left s t r (hb r hc)]

/-- `ExtractAppended` ignores newly allocated arrays likewise. -/
theorem extractAppended_store_grow (s : Store) (t : List (List SAttr))
    (c : CtxRef) (hb : ∀ r, c.appendRef = some r → r < s.length) :
    GoCtx.ExtractAppended (s ++ t) c = GoCtx.ExtractAppended s c := by
  cases hc : c.appendRef with
  | none => simp [GoCtx.ExtractAppended, hc]
  | some r =>
      simp [GoCtx.ExtractAppended, hc, readArr_append_left s t r (hb r hc)]

/-- `Prepend` only allocates one fresh array; it never writes an existing
one. -/
theorem prepend_store_extends (s : Store) (parent : CtxRef)
    (args : List GoArg) :
    ∃ l, (GoCtx.Prepend s (some parent) args).1 = s ++ [l] := by
  cases hp : parent.prependRef with
  | none =>
      exact ⟨ArgsToAttrSlice args, by simp [GoCtx.Prepend, hp, allocArr]⟩
  | some r =>
      exact ⟨readArr s r ++ ArgsToAttrSlice args,
        by simp [GoCtx.Prepend, hp, allocArr]⟩

/-- `Append` only allocates one fresh array likewise. -/
theorem append_store_extends (s : Store) (parent : CtxRef)
    (args : List GoArg) :
    ∃ l, (GoCtx.Append s (some parent) args).1 = s ++ [l] := by
  cases hp : parent.appendRef with
  | none =>
      exact ⟨ArgsToAttrSlice args, by simp [GoCtx.Append, hp, allocArr]⟩
  | some r =>
      exact ⟨readArr s r ++ ArgsToAttrSlice args,
        by simp [GoCtx.Append, hp, allocArr]⟩


/-- **C7.** Ambient context growth is isolated per context value.  In the
store reached after both derivations: `ExtractPrepended(c1)` is still
exactly `[k=v]`, `ExtractPrepended(c2)` is `[k=v, k2=v2]` in order, and
`ExtractPrepended(c0)` is empty.  In general, a `Prepend` or `Append` call
never alters either list readable from any context whose references predate
the call: growth happens only in a freshly allocated array. -/
theorem claim_C7_context_isolation (s0 : Store) :
    (GoCtx.ExtractPrepended (c7p2 s0).1 (c7p1 s0).2 = [("k", SValue.str "v")]
  ∧ GoCtx.ExtractPrepended (c7p2 s0).1 (c7p2 s0).2
      = [("k", SValue.str "v"), ("k2", SValue.str "v2")]
  ∧ GoCtx.ExtractPrepended (c7p2 s0).1 backgroundCtx = [])
  ∧ (∀ (s : Store) (c parent : CtxRef) (args : List GoArg),
      (∀ r, c.prependRef = some r → r < s.length) →
      (∀ r, c.appendRef = some r → r < s.length) →
      GoCtx.ExtractPrepended (GoCtx.Prepend s (some parent) args).1 c
          = GoCtx.ExtractPrepended s c
      ∧ GoCtx.ExtractAppended (GoCtx.Prepend s (some parent) args).1 c
          = GoCtx.ExtractAppended s c
      ∧ GoCtx.ExtractPrepended (GoCtx.Append s (some parent) args).1 c
          = GoCtx.ExtractPrepended s c
      ∧ GoCtx.ExtractAppended (GoCtx.Append s (some parent) args).1 c
          = GoCtx.ExtractAppended s c) := by
  constructor
  · have e1 : (c7p1 s0).1 = s0 ++ [[("k", SValue.str "v")]] := rfl
    have e1c : (c7p1 s0).2
        = { prependRef := some s0.length, appendRef := none } := rfl
    have er : readArr (c7p1 s0).1 s0.length = [("k", SValue.str "v")] := by
      rw [e1]; exact readArr_concat_self s0 _
    have e2 : (c7p2 s0).1
        = (c7p1 s0).1
            ++ [readArr (c7p1 s0).1 s0.length ++ [("k2", SValue.str "v2")]] :=
      rfl
    have e2c : (c7p2 s0).2
        = { prependRef := some (c7p1 s0).1.length, appendRef := none } := rfl
    refine ⟨?_, ?_, rfl⟩
    · rw [show GoCtx.ExtractPrepended (c7p2 s0).1 (c7p1 s0).2
            = readArr (c7p2 s0).1 s0.length from by rw [e1c]; rfl]
      rw [e2, readArr_append_left _ _ _ (by rw [e1]; simp), er]
    · rw [show GoCtx.ExtractPrepended (c7p2 s0).1 (c7p2 s0).2
            = readArr (c7p2 s0).1 (c7p1 s0).1.length from by rw [e2c]; rfl]
      rw [e2, readArr_concat_self, er]
      rfl
  · intro s c parent args hbp hba
    obtain ⟨l1, he1⟩ := prepend_store_extends s parent args
    obtain ⟨l2, he2⟩ := append_store_extends s parent args
    exact ⟨by rw [he1]; exact extractPrepended_store_grow s [l1] c hbp,
      by rw [he1]; exact extractAppended_store_grow s [l1] c hba,
      by rw [he2]; exact extractPrepended_store_grow s [l2] c hbp,
      by rw [he2]; exact extractAppended_store_grow s [l2] c hba⟩

/-- Witness for C7: the concrete scenario over the empty initial store,
plus one concrete instance of the general isolation statement. -/
theorem claim_C7_witness :
    GoCtx.ExtractPrepended (c7p2 []).1 (c7p1 []).2 = [("k", SValue.str "v")]
  ∧ GoCtx.ExtractPrepended (c7p2 []).1 (c7p2 []).2
      = [("k", SValue.str "v"), ("k2", SValue.str "v2")]
  ∧ GoCtx.ExtractPrepended (c7p2 []).1 backgroundCtx = []
  ∧ GoCtx.ExtractPrepended
      (GoCtx.Prepend [[("q", SValue.int 1)]] (some backgroundCtx)
        [.str "a", .str "b"]).1
      { prependRef := some 0, appendRef := none }
      = GoCtx.ExtractPrepended [[("q", SValue.int 1)]]
          { prependRef := some 0, appendRef := none } := by
  obtain ⟨⟨h1, h2, h3⟩, hg⟩ := claim_C7_context_isolation []
  refine ⟨h1, h2, h3, ?_⟩
  refine (hg [[("q", SValue.int 1)]]
    { prependRef := some 0, appendRef := none } backgroundCtx
    [.str "a", .str "b"] ?_ ?_).1
  · intro r hr
    have : r = 0 := (Option.some.inj hr).symm
    subst this
    decide
  · intro r hr
    exact Option.noConfusion hr

/-- Each collected error message is an infix of the combined
newline-joined message. -/
theorem infix_joinMsg_of_mem (es : List String) (e : String) (he : e ∈ es) :
    e.data <:+: (joinMsg es).data := by
  induction es with
  | nil => cases he
  | cons x rest ih =>
    cases rest with
    | nil =>
        rcases List.mem_cons.mp he with h | h
        · subst h; exact List.infix_rfl
        · cases h
    | cons y t =>
        rcases List.mem_cons.mp he with h | h
        · subst h
          refine ⟨[], ("\n" ++ joinMsg (y :: t)).data, ?_⟩
          simp [joinMsg]
        · refine List.IsInfix.trans (ih h) ?_
          refine List.IsSuffix.isInfix ⟨(x ++ "\n").data, ?_⟩
          simp [joinMsg]

/-- An error produced by an enabled, failing sink is among the collected
errors. -/
theorem mem_collectErrs (hs : List SHandler) (r : SRecord) (h : SHandler)
    (e : String) (hmem : h ∈ hs) (hen : SHandler.enabledB h r.level = true)
    (he : SHandler.handleB h r = some e) : e ∈ collectErrs hs r := by
  induction hs with
  | nil => cases hmem
  | cons x rest ih =>
    rcases List.mem_cons.mp hmem with hx | hx
    · subst hx
      simp [collectErrs, hen, he]
    · simp only [collectErrs]
      exact List.mem_append.mpr (Or.inr (ih hx))

/-- The collection loop gathers exactly the errors of the enabled sinks, in
sink order. -/
theorem collectErrs_eq_filterMap (hs : List SHandler) (r : SRecord) :
    collectErrs hs r
      = (hs.filter (fun h => SHandler.enabledB h r.level)).filterMap
          (fun h => SHandler.handleB h r) := by
  induction hs with
  | nil => rfl
  | cons x rest ih =>
    cases hen : SHandler.enabledB x r.level with
    | false => simp [collectErrs, List.filter_cons, hen, ih]
    | true =>
      cases he : SHandler.handleB x r with
      | none => simp [collectErrs, List.filter_cons, List.filterMap_cons,
          hen, he, ih]
      | some e => simp [collectErrs, List.filter_cons, List.filterMap_cons,
          hen, he, ih]

/-- `errors.Join` returns nil exactly when no error was collected. -/
theorem errorsJoin_eq_none (es : List String) :
    errorsJoin es = none ↔ es = [] := by
  cases es <;> simp [errorsJoin]

/-- No error is collected exactly when every enabled sink succeeded. -/
theorem collectErrs_eq_nil (hs : List SHandler) (r : SRecord) :
    collectErrs hs r = []
      ↔ ∀ h ∈ hs, SHandler.enabledB h r.level = true →
          SHandler.handleB h r = none := by
  induction hs with
  | nil => simp [collectErrs]
  | cons x rest ih =>
    cases hen : SHandler.enabledB x r.level with
    | false => simp [collectErrs, hen, ih]
    | true =>
      cases he : SHandler.handleB x r with
      | none => simp [collectErrs, hen, he, ih]
      | some e => simp [collectErrs, hen, he]

/-- **C5.** A broadcaster's `Handle` attempts every constituent sink whose
own `Enabled` passes — the collected error list is exactly the errors of
the enabled sinks in order, so an earlier failure never prevents a later
delivery — the result is nil iff every attempted sink succeeded, and every
attempted sink's error message appears inside the combined error's string
representation. -/
theorem claim_C5_error_aggregation (hs : List SHandler) (r : SRecord) :
    (collectErrs hs r
      = (hs.filter (fun h => SHandler.enabledB h r.level)).filterMap
          (fun h => SHandler.handleB h r))
  ∧ (SHandler.handleB (.multi hs) r = none
      ↔ ∀ h ∈ hs, SHandler.enabledB h r.level = true →
          SHandler.handleB h r = none)
  ∧ (∀ h ∈ hs, SHandler.enabledB h r.level = true →
      ∀ e, SHandler.handleB h r = some e →
        ∃ E, SHandler.handleB (.multi hs) r = some E
          ∧ e.data <:+: E.data) := by
  have hmulti : SHandler.handleB (.multi hs) r
      = errorsJoin (collectErrs hs r) := by
    simp [SHandler.handleB]
  refine ⟨collectErrs_eq_filterMap hs r, ?_, ?_⟩
  · rw [hmulti, errorsJoin_eq_none]
    exact collectErrs_eq_nil hs r
  · intro h hmem hen e he
    have hin := mem_collectErrs hs r h e hmem hen he
    have hne : collectErrs hs r ≠ [] := by
      intro h0; rw [h0] at hin; cases hin
    refine ⟨joinMsg (collectErrs hs r), ?_, infix_joinMsg_of_mem _ _ hin⟩
    rw [hmulti]
    cases hce : collectErrs hs r with
    | nil => exact absurd hce hne
    | cons a t => simp [errorsJoin]

/-- Witness for C5: two failing sinks, one disabled sink and one succeeding
sink; the first failure's message is contained in the combined error. -/
theorem claim_C5_witness :
    ∃ E, SHandler.handleB
        (.multi [sinkErr "first error", sinkOff, sinkErr "second error",
          sinkOk]) someRecord = some E
      ∧ ("first error").data <:+: E.data :=
  (claim_C5_error_aggregation
      [sinkErr "first error", sinkOff, sinkErr "second error", sinkOk]
      someRecord).2.2 (sinkErr "first error")
    (List.mem_cons_self _ _) rfl "first error" rfl
